import Mathlib

/-!
Verification of the ATC repository's physics helper functions.

The Python sources under verification are small numeric scripts.  Scalar
floating-point computations are embedded as functions over `ℝ`; where a claim
is specifically about IEEE special values (division by zero producing
infinity or NaN), a small explicit float-value model `FP` is used instead.
-/

open Real

/-! ## conventional_readout.py -/

/-- Parameters for acquisition system (dataclass `AcquisitionParams` in
`conventional_readout.py`): photon count rate (photons/second), readout time
(seconds), and contrast (signal visibility, 0-1). -/
structure AcquisitionParams where
  photon_count_rate : ℝ
  readout_time : ℝ
  contrast : ℝ

/-- `AcquisitionParams.photons_per_readout`: expected photons per readout,
`photon_count_rate * readout_time`. -/
def AcquisitionParams.photons_per_readout (p : AcquisitionParams) : ℝ :=
  p.photon_count_rate * p.readout_time

/-- `calculate_time_to_snr` from `conventional_readout.py`, embedded over `ℝ`
(the Python code computes with IEEE doubles; real-number division by zero is
treated separately in the `FP` model below).  Mirrors the source line by line:
`photons = params.photons_per_readout()`,
`snr_per_readout = params.contrast * np.sqrt(photons)*1/np.sqrt(2)`,
`n_readouts = (target_snr / snr_per_readout) ** 2`,
`acquisition_time = n_readouts * params.readout_time`,
`total_time = evolution_time*n_readouts + acquisition_time`. -/
noncomputable def calculate_time_to_snr (params : AcquisitionParams)
    (evolution_time : ℝ) (target_snr : ℝ) : ℝ :=
  let photons := params.photons_per_readout
  let snr_per_readout := params.contrast * Real.sqrt photons * 1 / Real.sqrt 2
  let n_readouts := (target_snr / snr_per_readout) ^ 2
  let acquisition_time := n_readouts * params.readout_time
  let total_time := evolution_time * n_readouts + acquisition_time
  total_time

/-- Closed form of `calculate_time_to_snr` for positive parameters:
`2·t² / (c²·rate·ro) · (ev + ro)`. -/
lemma calculate_time_to_snr_closed (p : AcquisitionParams) (ev t : ℝ)
    (hrate : 0 < p.photon_count_rate) (hro : 0 < p.readout_time)
    (hc : 0 < p.contrast) :
    calculate_time_to_snr p ev t =
      2 * t ^ 2 / (p.contrast ^ 2 * p.photon_count_rate * p.readout_time) *
        (ev + p.readout_time) := by
  have hP : (0:ℝ) < p.photon_count_rate * p.readout_time := mul_pos hrate hro
  have hsP : Real.sqrt (p.photon_count_rate * p.readout_time) ^ 2 =
      p.photon_count_rate * p.readout_time := Real.sq_sqrt hP.le
  have hs2 : Real.sqrt 2 ^ 2 = 2 := Real.sq_sqrt (by norm_num)
  have hsP0 : Real.sqrt (p.photon_count_rate * p.readout_time) ≠ 0 :=
    ne_of_gt (Real.sqrt_pos.mpr hP)
  have hs20 : Real.sqrt 2 ≠ 0 := ne_of_gt (Real.sqrt_pos.mpr (by norm_num))
  unfold calculate_time_to_snr AcquisitionParams.photons_per_readout
  field_simp
  ring_nf
  rw [hs2, Real.sq_sqrt hrate.le, Real.sq_sqrt hro.le]
  ring

/-- C1: for positive photon count rate, readout time, contrast in (0,1],
nonnegative evolution time and positive target SNR, `calculate_time_to_snr`
computes photons = rate·readout, SNR per readout = contrast·√photons/√2,
required readouts = (targetSNR/snrPerReadout)², and returns
totalTime = requiredReadouts·(evolutionTime + readoutTime). -/
theorem timeToTargetSNR_formula (p : AcquisitionParams) (ev t : ℝ)
    (hrate : 0 < p.photon_count_rate) (hro : 0 < p.readout_time)
    (hc : 0 < p.contrast) (hc1 : p.contrast ≤ 1) (hev : 0 ≤ ev) (ht : 0 < t) :
    p.photons_per_readout = p.photon_count_rate * p.readout_time ∧
    calculate_time_to_snr p ev t =
      (t / (p.contrast * Real.sqrt p.photons_per_readout / Real.sqrt 2)) ^ 2 *
        (ev + p.readout_time) := by
  refine ⟨rfl, ?_⟩
  unfold calculate_time_to_snr
  ring

/-- Witness for C1 at rate = 2, readout = 2, contrast = 1, ev = 0, snr = 1. -/
theorem timeToTargetSNR_formula_witness :
    (0:ℝ) < 2 ∧ (0:ℝ) < 2 ∧ (0:ℝ) < 1 ∧ (1:ℝ) ≤ 1 ∧ (0:ℝ) ≤ 0 ∧ (0:ℝ) < 1 ∧
    ((AcquisitionParams.mk 2 2 1).photons_per_readout =
        (AcquisitionParams.mk 2 2 1).photon_count_rate *
          (AcquisitionParams.mk 2 2 1).readout_time ∧
      calculate_time_to_snr (AcquisitionParams.mk 2 2 1) 0 1 =
        (1 / ((AcquisitionParams.mk 2 2 1).contrast *
            Real.sqrt (AcquisitionParams.mk 2 2 1).photons_per_readout /
              Real.sqrt 2)) ^ 2 *
          (0 + (AcquisitionParams.mk 2 2 1).readout_time)) :=
  ⟨by norm_num, by norm_num, by norm_num, le_refl 1, le_refl 0, by norm_num,
    timeToTargetSNR_formula (AcquisitionParams.mk 2 2 1) 0 1 (by norm_num)
      (by norm_num) (by norm_num) (le_refl 1) (le_refl 0) (by norm_num)⟩

/-- C7: with rate, readout time fixed and positive, evolution time
nonnegative and target SNR positive, the total time is positive, and it
strictly decreases as contrast increases on (0,1]. -/
theorem timeToTargetSNR_contrast_mono (rate ro ev t c₁ c₂ : ℝ)
    (hrate : 0 < rate) (hro : 0 < ro) (hev : 0 ≤ ev) (ht : 0 < t)
    (hc₁ : 0 < c₁) (hlt : c₁ < c₂) (hc₂ : c₂ ≤ 1) :
    0 < calculate_time_to_snr (AcquisitionParams.mk rate ro c₂) ev t ∧
    calculate_time_to_snr (AcquisitionParams.mk rate ro c₂) ev t <
      calculate_time_to_snr (AcquisitionParams.mk rate ro c₁) ev t := by
  have hc₂' : 0 < c₂ := hc₁.trans hlt
  rw [calculate_time_to_snr_closed _ ev t hrate hro hc₂',
    calculate_time_to_snr_closed _ ev t hrate hro hc₁]
  constructor
  · have : (0:ℝ) < ev + ro := by linarith
    positivity
  · have hnum : (0:ℝ) < 2 * t ^ 2 := by positivity
    have hden₁ : (0:ℝ) < c₁ ^ 2 * rate * ro := by positivity
    have hden : c₁ ^ 2 * rate * ro < c₂ ^ 2 * rate * ro := by
      have : c₁ ^ 2 < c₂ ^ 2 := by nlinarith
      nlinarith
    have hfrac : 2 * t ^ 2 / (c₂ ^ 2 * rate * ro) <
        2 * t ^ 2 / (c₁ ^ 2 * rate * ro) :=
      div_lt_div_of_pos_left hnum hden₁ hden
    have hpos : (0:ℝ) < ev + ro := by linarith
    exact mul_lt_mul_of_pos_right hfrac hpos

/-- Witness for C7 at rate = 1, ro = 1, ev = 0, t = 1, c₁ = 1/2, c₂ = 1. -/
theorem timeToTargetSNR_contrast_mono_witness :
    (0:ℝ) < 1 ∧ (0:ℝ) < 1 ∧ (0:ℝ) ≤ 0 ∧ (0:ℝ) < 1 ∧ (0:ℝ) < 1/2 ∧
    (1/2:ℝ) < 1 ∧ (1:ℝ) ≤ 1 ∧
    (0 < calculate_time_to_snr (AcquisitionParams.mk 1 1 1) 0 1 ∧
      calculate_time_to_snr (AcquisitionParams.mk 1 1 1) 0 1 <
        calculate_time_to_snr (AcquisitionParams.mk 1 1 (1/2)) 0 1) :=
  ⟨by norm_num, by norm_num, le_refl 0, by norm_num, by norm_num, by norm_num,
    le_refl 1,
    timeToTargetSNR_contrast_mono 1 1 0 1 (1/2) 1 (by norm_num) (by norm_num)
      (le_refl 0) (by norm_num) (by norm_num) (by norm_num) (le_refl 1)⟩

/-- C10: with evolution time 0, the total time is independent of the readout
time: it equals `2·t² / (c²·rate)` for every positive readout time, because
the readout-time factor in photons-per-readout cancels against the
per-readout acquisition cost. -/
theorem timeToTargetSNR_readout_time_cancels (rate ro c t : ℝ)
    (hrate : 0 < rate) (hro : 0 < ro) (hc : 0 < c) :
    calculate_time_to_snr (AcquisitionParams.mk rate ro c) 0 t =
      2 * t ^ 2 / (c ^ 2 * rate) := by
  rw [calculate_time_to_snr_closed _ 0 t hrate hro hc]
  field_simp
  ring

/-- Witness for C10 at rate = 1, ro = 5, c = 1, t = 1. -/
theorem timeToTargetSNR_readout_time_cancels_witness :
    (0:ℝ) < 1 ∧ (0:ℝ) < 5 ∧ (0:ℝ) < 1 ∧
    calculate_time_to_snr (AcquisitionParams.mk 1 5 1) 0 1 =
      2 * 1 ^ 2 / (1 ^ 2 * 1) :=
  ⟨by norm_num, by norm_num, by norm_num,
    timeToTargetSNR_readout_time_cancels 1 5 1 1 (by norm_num) (by norm_num)
      (by norm_num)⟩

/-! ## delta_function.py -/

/-- `delta_function` from `delta_function.py`: approximates a delta function
by a Gaussian.  `sigma = width / (2 * np.sqrt(2 * np.log(2)))` converts FWHM
to sigma; returns `amplitude * np.exp(-((x - center) ** 2) / (2 * sigma ** 2))`. -/
noncomputable def delta_function (x center width : ℝ) (amplitude : ℝ := 1) : ℝ :=
  let sigma := width / (2 * Real.sqrt (2 * Real.log 2))
  amplitude * Real.exp (-((x - center) ^ 2) / (2 * sigma ^ 2))

/-- The Gaussian exponent of `delta_function` at offset `width/2` from the
center equals `-log 2`. -/
lemma delta_function_half_exponent (width : ℝ) (hw : 0 < width) :
    -((width / 2) ^ 2) /
        (2 * (width / (2 * Real.sqrt (2 * Real.log 2))) ^ 2) = -Real.log 2 := by
  have hlog : (0:ℝ) < Real.log 2 := Real.log_pos (by norm_num)
  have hs : Real.sqrt (2 * Real.log 2) ^ 2 = 2 * Real.log 2 :=
    Real.sq_sqrt (by positivity)
  have hs0 : Real.sqrt (2 * Real.log 2) ≠ 0 :=
    ne_of_gt (Real.sqrt_pos.mpr (by positivity))
  field_simp
  ring_nf
  rw [Real.sq_sqrt (by norm_num : (0:ℝ) ≤ 2), Real.sq_sqrt hlog.le]
  ring

/-- C4: `delta_function` converts FWHM to sigma via
σ = width / (2√(2 ln 2)) and returns amplitude·exp(−(x−center)²/(2σ²));
at x = center it returns exactly the amplitude, and at x = center ± width/2
it returns amplitude/2. -/
theorem gaussianDeltaApprox_fwhm (center width amplitude : ℝ)
    (hw : 0 < width) :
    (∀ x, delta_function x center width amplitude =
        amplitude * Real.exp (-((x - center) ^ 2) /
          (2 * (width / (2 * Real.sqrt (2 * Real.log 2))) ^ 2))) ∧
    delta_function center center width amplitude = amplitude ∧
    delta_function (center + width / 2) center width amplitude =
      amplitude / 2 ∧
    delta_function (center - width / 2) center width amplitude =
      amplitude / 2 := by
  have hexp : Real.exp (-Real.log 2) = 1 / 2 := by
    rw [Real.exp_neg, Real.exp_log (by norm_num : (0:ℝ) < 2)]
    norm_num
  refine ⟨fun x => rfl, ?_, ?_, ?_⟩
  · simp [delta_function]
  · show amplitude * Real.exp (-((center + width / 2 - center) ^ 2) / _) = _
    rw [show center + width / 2 - center = width / 2 by ring,
      delta_function_half_exponent width hw, hexp]
    ring
  · show amplitude * Real.exp (-((center - width / 2 - center) ^ 2) / _) = _
    rw [show (center - width / 2 - center) ^ 2 = (width / 2) ^ 2 by ring,
      delta_function_half_exponent width hw, hexp]
    ring

/-- Witness for C4 at center = 0, width = 2, amplitude = 1. -/
theorem gaussianDeltaApprox_fwhm_witness :
    (0:ℝ) < 2 ∧
    ((∀ x, delta_function x 0 2 1 =
        1 * Real.exp (-((x - 0) ^ 2) /
          (2 * (2 / (2 * Real.sqrt (2 * Real.log 2))) ^ 2))) ∧
      delta_function 0 0 2 1 = 1 ∧
      delta_function (0 + 2 / 2) 0 2 1 = 1 / 2 ∧
      delta_function (0 - 2 / 2) 0 2 1 = 1 / 2) :=
  ⟨by norm_num, gaussianDeltaApprox_fwhm 0 2 1 (by norm_num)⟩

/-! ## atc_plots_kernel.py -/

/-- `f` from `atc_plots_kernel.py`: the momentum filter kernel
`q**3 * np.exp(-2*q*d)`. -/
noncomputable def f (q d : ℝ) : ℝ := q ^ 3 * Real.exp (-2 * q * d)

/-- For positive `u ≠ 1`, `u·e^(1−u) < 1` (strict form of the standard
exponential bound). -/
lemma mul_exp_one_sub_lt_one (u : ℝ) (hu : 0 < u) (hu1 : u ≠ 1) :
    u * Real.exp (1 - u) < 1 := by
  have h := Real.add_one_lt_exp (x := u - 1) (by
    intro h
    exact hu1 (by linarith [sub_eq_zero.mp h]))
  have hlt : u < Real.exp (u - 1) := by linarith
  have hpos : (0:ℝ) < Real.exp (1 - u) := Real.exp_pos _
  calc u * Real.exp (1 - u) < Real.exp (u - 1) * Real.exp (1 - u) :=
        mul_lt_mul_of_pos_right hlt hpos
    _ = 1 := by rw [← Real.exp_add]; norm_num

/-- C5: for q > 0 and d > 0, `f q d = q³·e^(−2qd)` is non-negative, and for
each fixed d the map q ↦ f q d has a strict global maximum on q > 0 at
q* = 3/(2d): every other positive q gives a strictly smaller value. -/
theorem momentumKernel_max (q d : ℝ) (hq : 0 < q) (hd : 0 < d)
    (hne : q ≠ 3 / (2 * d)) :
    0 ≤ f q d ∧ f q d < f (3 / (2 * d)) d := by
  constructor
  · unfold f; positivity
  · set qs : ℝ := 3 / (2 * d) with hqs_def
    set u : ℝ := 2 * d * q / 3 with hu_def
    have hu : 0 < u := by positivity
    have hqd : q = qs * u := by
      rw [hqs_def, hu_def]; field_simp; ring
    have hqsd : 2 * qs * d = 3 := by
      rw [hqs_def]; field_simp; ring
    have hu1 : u ≠ 1 := by
      intro h
      apply hne
      rw [hqd, h, mul_one]
    have hcube : (u * Real.exp (1 - u)) ^ 3 < 1 :=
      pow_lt_one₀ (by positivity) (mul_exp_one_sub_lt_one u hu hu1)
        (by norm_num)
    have hfqs : 0 < f qs d := by
      unfold f
      have hqs0 : 0 < qs := by rw [hqs_def]; positivity
      positivity
    have hexp3 : Real.exp (1 - u) ^ 3 = Real.exp (3 * (1 - u)) := by
      rw [← Real.exp_nat_mul]; norm_num
    have harg : -2 * (qs * u) * d = 3 * (1 - u) + -2 * qs * d := by
      linear_combination (1 - u) * hqsd
    have hkey : f q d = f qs d * (u * Real.exp (1 - u)) ^ 3 := by
      unfold f
      rw [hqd, mul_pow, mul_pow, hexp3, harg, Real.exp_add]
      ring
    rw [hkey]
    calc f qs d * (u * Real.exp (1 - u)) ^ 3 < f qs d * 1 :=
          mul_lt_mul_of_pos_left hcube hfqs
      _ = f qs d := mul_one _

/-- Witness for C5 at q = 1, d = 1 (where q* = 3/2). -/
theorem momentumKernel_max_witness :
    (0:ℝ) < 1 ∧ (0:ℝ) < 1 ∧ (1:ℝ) ≠ 3 / (2 * 1) ∧
    (0 ≤ f 1 1 ∧ f 1 1 < f (3 / (2 * 1)) 1) :=
  ⟨by norm_num, by norm_num, by norm_num,
    momentumKernel_max 1 1 (by norm_num) (by norm_num) (by norm_num)⟩

/-! ## sombrero_potential.py and sombrero_sonnet.py -/

/-- Sombrero potential from `sombrero_potential.py`:
`Z = mu * r_squared + r_squared**2` with `r_squared = X**2 + Y**2`. -/
def sombrero_Z (x y mu : ℝ) : ℝ :=
  mu * (x ^ 2 + y ^ 2) + (x ^ 2 + y ^ 2) ^ 2

/-- Sombrero potential from `sombrero_sonnet.py`:
`V = -mu_sq * r_squared + lambda_param * r_squared**2`. -/
def sombrero_V (x y mu_sq lambda_param : ℝ) : ℝ :=
  -mu_sq * (x ^ 2 + y ^ 2) + lambda_param * (x ^ 2 + y ^ 2) ^ 2

/-- The general sombrero form `mu·r² + lambda·r⁴` of the claim, covering both
source scripts (`sombrero_Z` is the case lambda = 1, `sombrero_V` is the case
mu = −mu_sq). -/
def sombreroPotential (x y mu lam : ℝ) : ℝ :=
  mu * (x ^ 2 + y ^ 2) + lam * (x ^ 2 + y ^ 2) ^ 2

/-- Derivative of a coordinate slice `s ↦ mu·(s²+c) + lam·(s²+c)²`. -/
lemma hasDerivAt_sombrero_slice (c mu lam t : ℝ) :
    HasDerivAt (fun s : ℝ => mu * (s ^ 2 + c) + lam * (s ^ 2 + c) ^ 2)
      (2 * t * (mu + 2 * lam * (t ^ 2 + c))) t := by
  have h1 : HasDerivAt (fun s : ℝ => s ^ 2 + c) (2 * t) t := by
    simpa using (hasDerivAt_pow 2 t).add_const c
  have h2 := h1.const_mul mu
  have h4 := (h1.pow 2).const_mul lam
  have h5 := h2.add h4
  convert h5 using 1
  ring

/-- Derivative of the other coordinate slice `s ↦ mu·(c+s²) + lam·(c+s²)²`. -/
lemma hasDerivAt_sombrero_slice' (c mu lam t : ℝ) :
    HasDerivAt (fun s : ℝ => mu * (c + s ^ 2) + lam * (c + s ^ 2) ^ 2)
      (2 * t * (mu + 2 * lam * (c + t ^ 2))) t := by
  have h1 : HasDerivAt (fun s : ℝ => c + s ^ 2) (2 * t) t := by
    simpa using (hasDerivAt_pow 2 t).const_add c
  have h2 := h1.const_mul mu
  have h4 := (h1.pow 2).const_mul lam
  have h5 := h2.add h4
  convert h5 using 1
  ring

/-- C6: for every mu and every lambda > 0, `sombreroPotential x y mu lam =
mu·r² + lam·r⁴` (with `sombrero_Z` the lambda = 1 and `sombrero_V` the
sign-flipped source forms), it vanishes at the origin, it is non-negative
everywhere when mu ≥ 0, and for mu < 0 its global minimum lies away from the
origin on the ring r² = −mu/(2·lam), where both partial derivatives vanish. -/
theorem sombreroPotential_spec (mu lam : ℝ) (hlam : 0 < lam) :
    (∀ a b m, sombrero_Z a b m = sombreroPotential a b m 1) ∧
    (∀ a b m l, sombrero_V a b m l = sombreroPotential a b (-m) l) ∧
    sombreroPotential 0 0 mu lam = 0 ∧
    (0 ≤ mu → ∀ a b, 0 ≤ sombreroPotential a b mu lam) ∧
    (mu < 0 → ∀ x y, x ^ 2 + y ^ 2 = -mu / (2 * lam) →
      (∀ a b, sombreroPotential x y mu lam ≤ sombreroPotential a b mu lam) ∧
      sombreroPotential x y mu lam < sombreroPotential 0 0 mu lam ∧
      HasDerivAt (fun s => sombreroPotential s y mu lam) 0 x ∧
      HasDerivAt (fun s => sombreroPotential x s mu lam) 0 y) := by
  refine ⟨fun a b m => by unfold sombrero_Z sombreroPotential; ring,
    fun a b m l => by unfold sombrero_V sombreroPotential; ring,
    by unfold sombreroPotential; ring, ?_, ?_⟩
  · intro hmu a b
    unfold sombreroPotential
    have h1 : (0:ℝ) ≤ a ^ 2 + b ^ 2 := by positivity
    have h2 : (0:ℝ) ≤ mu * (a ^ 2 + b ^ 2) := mul_nonneg hmu h1
    have h3 : (0:ℝ) ≤ lam * (a ^ 2 + b ^ 2) ^ 2 :=
      mul_nonneg hlam.le (by positivity)
    linarith
  · intro hmu x y hring
    have hxy : sombreroPotential x y mu lam = -(mu ^ 2) / (4 * lam) := by
      unfold sombreroPotential
      rw [hring]
      field_simp
      ring
    have h00 : sombreroPotential 0 0 mu lam = 0 := by
      unfold sombreroPotential; ring
    refine ⟨?_, ?_, ?_, ?_⟩
    · intro a b
      rw [hxy]
      unfold sombreroPotential
      rw [div_le_iff₀ (by positivity : (0:ℝ) < 4 * lam)]
      nlinarith [sq_nonneg (2 * lam * (a ^ 2 + b ^ 2) + mu)]
    · rw [hxy, h00]
      have h2 : 0 < mu ^ 2 := by nlinarith
      exact div_neg_of_neg_of_pos (by linarith) (by positivity)
    · have hx := hasDerivAt_sombrero_slice (y ^ 2) mu lam x
      have hval : 2 * x * (mu + 2 * lam * (x ^ 2 + y ^ 2)) = 0 := by
        rw [hring]
        field_simp
        ring
      rw [hval] at hx
      simpa [sombreroPotential] using hx
    · have hy := hasDerivAt_sombrero_slice' (x ^ 2) mu lam y
      have hval : 2 * y * (mu + 2 * lam * (x ^ 2 + y ^ 2)) = 0 := by
        rw [hring]
        field_simp
        ring
      rw [hval] at hy
      simpa [sombreroPotential] using hy

/-- Witness for C6 at mu = −2, lam = 1 (ring r² = 1, point (1,0)). -/
theorem sombreroPotential_spec_witness :
    (0:ℝ) < 1 ∧
    ((∀ a b m, sombrero_Z a b m = sombreroPotential a b m 1) ∧
      (∀ a b m l, sombrero_V a b m l = sombreroPotential a b (-m) l) ∧
      sombreroPotential 0 0 (-2) 1 = 0 ∧
      (0 ≤ (-2:ℝ) → ∀ a b, 0 ≤ sombreroPotential a b (-2) 1) ∧
      ((-2:ℝ) < 0 → ∀ x y, x ^ 2 + y ^ 2 = -(-2) / (2 * 1) →
        (∀ a b, sombreroPotential x y (-2) 1 ≤ sombreroPotential a b (-2) 1) ∧
        sombreroPotential x y (-2) 1 < sombreroPotential 0 0 (-2) 1 ∧
        HasDerivAt (fun s => sombreroPotential s y (-2) 1) 0 x ∧
        HasDerivAt (fun s => sombreroPotential x s (-2) 1) 0 y)) :=
  ⟨by norm_num, sombreroPotential_spec (-2) 1 (by norm_num)⟩

/-! ## IEEE special-value model for conventional_readout.py (claim C3)

`calculate_time_to_snr` runs on numpy float64 values.  With `contrast = 0`
or `photon_count_rate = 0` the intermediate `snr_per_readout` is 0 and
`target_snr / snr_per_readout` divides by zero; numpy does not raise, it
produces `inf` (and `0 * inf` produces `nan`).  `FP` models the float values
needed to settle that claim: exact reals plus `inf`, `ninf` and `nan`, with
the IEEE-754 rules for the operations the function performs (finite overflow
and rounding are not modelled; the inputs here are exact). -/

/-- A floating-point value: a finite real, +infinity, -infinity, or NaN. -/
inductive FP where
  | fin : ℝ → FP
  | inf : FP
  | ninf : FP
  | nan : FP

/-- IEEE multiplication on `FP` (signed zero is not modelled: `0 * ±inf` is
NaN, matching IEEE, and finite times are exact). -/
noncomputable def FP.mul : FP → FP → FP
  | .fin x, .fin y => .fin (x * y)
  | .fin x, .inf => if x = 0 then .nan else if 0 < x then .inf else .ninf
  | .inf, .fin x => if x = 0 then .nan else if 0 < x then .inf else .ninf
  | .fin x, .ninf => if x = 0 then .nan else if 0 < x then .ninf else .inf
  | .ninf, .fin x => if x = 0 then .nan else if 0 < x then .ninf else .inf
  | .inf, .inf => .inf
  | .inf, .ninf => .ninf
  | .ninf, .inf => .ninf
  | .ninf, .ninf => .inf
  | .nan, _ => .nan
  | _, .nan => .nan

/-- IEEE division on `FP` (positive zero only: `x / 0` is `inf` for x > 0,
`ninf` for x < 0, NaN for `0 / 0`). -/
noncomputable def FP.div : FP → FP → FP
  | .fin x, .fin y =>
      if y = 0 then (if x = 0 then .nan else if 0 < x then .inf else .ninf)
      else .fin (x / y)
  | .fin _, .inf => .fin 0
  | .fin _, .ninf => .fin 0
  | .inf, .fin y => if 0 ≤ y then .inf else .ninf
  | .ninf, .fin y => if 0 ≤ y then .ninf else .inf
  | .inf, .inf => .nan
  | .inf, .ninf => .nan
  | .ninf, .inf => .nan
  | .ninf, .ninf => .nan
  | .nan, _ => .nan
  | _, .nan => .nan

/-- IEEE addition on `FP`. -/
noncomputable def FP.add : FP → FP → FP
  | .fin x, .fin y => .fin (x + y)
  | .fin _, .inf => .inf
  | .inf, .fin _ => .inf
  | .fin _, .ninf => .ninf
  | .ninf, .fin _ => .ninf
  | .inf, .inf => .inf
  | .ninf, .ninf => .ninf
  | .inf, .ninf => .nan
  | .ninf, .inf => .nan
  | .nan, _ => .nan
  | _, .nan => .nan

/-- IEEE square root on `FP` (`np.sqrt`): NaN on negative arguments. -/
noncomputable def FP.sqrt : FP → FP
  | .fin x => if x < 0 then .nan else .fin (Real.sqrt x)
  | .inf => .inf
  | .ninf => .nan
  | .nan => .nan

/-- Whether an `FP` value is a finite number. -/
def FP.isFinite : FP → Prop
  | .fin _ => True
  | _ => False

/-- `calculate_time_to_snr` from `conventional_readout.py` evaluated in the
IEEE float-value model `FP`, mirroring the source operation by operation:
`photons = rate * readout_time`;
`snr_per_readout = contrast * sqrt(photons) * 1 / sqrt(2)`;
`n_readouts = (target_snr / snr_per_readout) ** 2` (`x ** 2 = x·x`);
`total = evolution_time * n_readouts + n_readouts * readout_time`. -/
noncomputable def calculate_time_to_snr_fp (rate ro contrast ev t : FP) : FP :=
  let photons := rate.mul ro
  let snr_per_readout :=
    (((contrast.mul photons.sqrt).mul (FP.fin 1)).div (FP.fin 2).sqrt)
  let n_readouts := (t.div snr_per_readout).mul (t.div snr_per_readout)
  let acquisition_time := n_readouts.mul ro
  (ev.mul n_readouts).add acquisition_time

/-- Counterexample to C3: at photon_count_rate = 1, readout_time = 1,
contrast = 0, evolution_time = 0, target_snr = 1 the code raises nothing and
silently returns NaN — there is no invalid-argument failure. -/
theorem timeToTargetSNR_zero_contrast_returns_nan :
    calculate_time_to_snr_fp (FP.fin 1) (FP.fin 1) (FP.fin 0) (FP.fin 0)
      (FP.fin 1) = FP.nan := by
  have h2 : ¬ ((2:ℝ) < 0) := by norm_num
  have hs2 : Real.sqrt 2 ≠ 0 := ne_of_gt (Real.sqrt_pos.mpr (by norm_num))
  simp [calculate_time_to_snr_fp, FP.mul, FP.div, FP.add, FP.sqrt, h2, hs2]
  norm_num

/-- Amended C3: the code performs no input validation.  When contrast = 0 or
photon_count_rate = 0 (with the other parameters in range), snrPerReadout is
0, the division by zero produces infinity, and the function silently returns
a non-finite value — NaN when evolutionTime = 0 (from `0 * inf`), +infinity
when evolutionTime > 0 — never a finite number and never a labeled error. -/
theorem timeToTargetSNR_zero_contrast_not_finite (rate ro c ev t : ℝ)
    (hrate : 0 ≤ rate) (hro : 0 < ro) (hc : 0 ≤ c) (hev : 0 ≤ ev) (ht : 0 < t)
    (hzero : c = 0 ∨ rate = 0) :
    (calculate_time_to_snr_fp (FP.fin rate) (FP.fin ro) (FP.fin c) (FP.fin ev)
        (FP.fin t) = FP.nan ∨
      calculate_time_to_snr_fp (FP.fin rate) (FP.fin ro) (FP.fin c) (FP.fin ev)
        (FP.fin t) = FP.inf) ∧
    ¬ (calculate_time_to_snr_fp (FP.fin rate) (FP.fin ro) (FP.fin c)
        (FP.fin ev) (FP.fin t)).isFinite := by
  have h2 : ¬ ((2:ℝ) < 0) := by norm_num
  have hs2 : Real.sqrt 2 ≠ 0 := ne_of_gt (Real.sqrt_pos.mpr (by norm_num))
  have hP : ¬ (rate * ro < 0) := not_lt.mpr (mul_nonneg hrate hro.le)
  have hnum : c * Real.sqrt (rate * ro) * 1 = 0 := by
    rcases hzero with hc0 | hr0
    · rw [hc0]; ring
    · rw [hr0, zero_mul, Real.sqrt_zero]; ring
  have hmain : calculate_time_to_snr_fp (FP.fin rate) (FP.fin ro) (FP.fin c)
      (FP.fin ev) (FP.fin t) = if ev = 0 then FP.nan else FP.inf := by
    simp only [calculate_time_to_snr_fp, FP.mul, FP.div, FP.add, FP.sqrt,
      if_neg h2, if_neg hP, if_neg hs2, hnum]
    rw [if_pos (zero_div (Real.sqrt 2)), if_neg (ne_of_gt ht),
      if_pos ht]
    simp only [FP.mul, FP.add]
    rw [if_neg (ne_of_gt hro), if_pos hro]
    by_cases hev0 : ev = 0
    · rw [if_pos hev0, if_pos hev0]
    · rw [if_neg hev0, if_neg hev0,
        if_pos (lt_of_le_of_ne hev (Ne.symm hev0))]
  rw [hmain]
  by_cases hev0 : ev = 0
  · rw [if_pos hev0]
    exact ⟨Or.inl rfl, by simp [FP.isFinite]⟩
  · rw [if_neg hev0]
    exact ⟨Or.inr rfl, by simp [FP.isFinite]⟩

/-- Witness for the amended C3 at rate = 1, ro = 1, c = 0, ev = 1, t = 1. -/
theorem timeToTargetSNR_zero_contrast_not_finite_witness :
    (0:ℝ) ≤ 1 ∧ (0:ℝ) < 1 ∧ (0:ℝ) ≤ 0 ∧ (0:ℝ) ≤ 1 ∧ (0:ℝ) < 1 ∧
    ((0:ℝ) = 0 ∨ (1:ℝ) = 0) ∧
    ((calculate_time_to_snr_fp (FP.fin 1) (FP.fin 1) (FP.fin 0) (FP.fin 1)
          (FP.fin 1) = FP.nan ∨
        calculate_time_to_snr_fp (FP.fin 1) (FP.fin 1) (FP.fin 0) (FP.fin 1)
          (FP.fin 1) = FP.inf) ∧
      ¬ (calculate_time_to_snr_fp (FP.fin 1) (FP.fin 1) (FP.fin 0) (FP.fin 1)
          (FP.fin 1)).isFinite) :=
  ⟨by norm_num, by norm_num, le_refl 0, by norm_num, by norm_num,
    Or.inl rfl,
    timeToTargetSNR_zero_contrast_not_finite 1 1 0 1 1 (by norm_num)
      (by norm_num) (le_refl 0) (by norm_num) (by norm_num) (Or.inl rfl)⟩

/-! ## plot_T1_decay_80K_2L.py -/

/-- `stretched_exp` from `plot_T1_decay_80K_2L.py`:
`A * np.exp(- (t / tau) ** gamma)` (real exponent, so `^` is `Real.rpow`). -/
noncomputable def stretched_exp (t A tau gamma : ℝ) : ℝ :=
  A * Real.exp (-(t / tau) ^ gamma)

/-- numpy `.max()` over a 1-d array, as a left fold (0 on the empty list,
which numpy rejects; all uses here are on nonempty data). -/
noncomputable def npMax : List ℝ → ℝ
  | [] => 0
  | x :: xs => xs.foldl max x

/-- numpy `.min()` over a 1-d array, as a left fold. -/
noncomputable def npMin : List ℝ → ℝ
  | [] => 0
  | x :: xs => xs.foldl min x

lemma le_foldl_max_base (x : ℝ) (xs : List ℝ) : x ≤ xs.foldl max x := by
  induction xs generalizing x with
  | nil => simp
  | cons y ys ih => exact le_trans (le_max_left x y) (ih (max x y))

lemma le_foldl_max (x : ℝ) (xs : List ℝ) :
    ∀ a ∈ x :: xs, a ≤ xs.foldl max x := by
  induction xs generalizing x with
  | nil =>
      intro a ha
      rw [List.mem_singleton] at ha
      subst ha
      simp
  | cons y ys ih =>
      intro a ha
      simp only [List.foldl_cons]
      rcases List.mem_cons.mp ha with h | h
      · subst h
        exact le_trans (le_max_left a y) (le_foldl_max_base _ _)
      · rcases List.mem_cons.mp h with h' | h'
        · subst h'
          exact le_trans (le_max_right x a) (le_foldl_max_base _ _)
        · exact ih (max x y) a (List.mem_cons_of_mem _ h')

lemma foldl_max_mem (x : ℝ) (xs : List ℝ) : xs.foldl max x ∈ x :: xs := by
  induction xs generalizing x with
  | nil => simp
  | cons y ys ih =>
      simp only [List.foldl_cons]
      rcases List.mem_cons.mp (ih (max x y)) with h | h
      · rw [h]
        rcases max_choice x y with h' | h'
        · rw [h']
          exact List.mem_cons_self _ _
        · rw [h']
          exact List.mem_cons_of_mem _ (List.mem_cons_self _ _)
      · exact List.mem_cons_of_mem _ (List.mem_cons_of_mem _ h)

lemma foldl_min_le_base (x : ℝ) (xs : List ℝ) : xs.foldl min x ≤ x := by
  induction xs generalizing x with
  | nil => simp
  | cons y ys ih => exact le_trans (ih (min x y)) (min_le_left x y)

lemma foldl_min_le (x : ℝ) (xs : List ℝ) :
    ∀ a ∈ x :: xs, xs.foldl min x ≤ a := by
  induction xs generalizing x with
  | nil =>
      intro a ha
      rw [List.mem_singleton] at ha
      subst ha
      simp
  | cons y ys ih =>
      intro a ha
      simp only [List.foldl_cons]
      rcases List.mem_cons.mp ha with h | h
      · subst h
        exact le_trans (foldl_min_le_base _ _) (min_le_left a y)
      · rcases List.mem_cons.mp h with h' | h'
        · subst h'
          exact le_trans (foldl_min_le_base _ _) (min_le_right x a)
        · exact ih (min x y) a (List.mem_cons_of_mem _ h')

lemma foldl_min_mem (x : ℝ) (xs : List ℝ) : xs.foldl min x ∈ x :: xs := by
  induction xs generalizing x with
  | nil => simp
  | cons y ys ih =>
      simp only [List.foldl_cons]
      rcases List.mem_cons.mp (ih (min x y)) with h | h
      · rw [h]
        rcases min_choice x y with h' | h'
        · rw [h']
          exact List.mem_cons_self _ _
        · rw [h']
          exact List.mem_cons_of_mem _ (List.mem_cons_self _ _)
      · exact List.mem_cons_of_mem _ (List.mem_cons_of_mem _ h)

/-- Result of a `curve_fit` call: point estimates `popt` and parameter
covariance matrix `pcov` for the three parameters A, tau, gamma. -/
structure FitResult where
  popt : Fin 3 → ℝ
  pcov : Fin 3 → Fin 3 → ℝ

/-- The initial-guess vector `p0 = [A0, tau0, gamma0]` from
`plot_T1_decay_80K_2L.py`: `A0 = signal.max()`,
`tau0 = (time_us.max() - time_us.min()) / 2`, `gamma0 = 1.0`. -/
noncomputable def initialGuess (time_us signal : List ℝ) : Fin 3 → ℝ :=
  ![npMax signal, (npMax time_us - npMin time_us) / 2, 1]

/-- The fit pipeline of `plot_T1_decay_80K_2L.py`, parameterized by the
nonlinear least-squares solver (scipy's `curve_fit`, an external library):
it invokes the solver on `stretched_exp` with the data, uncertainties and the
initial guesses above, and forms `perr = np.sqrt(np.diag(pcov))`. -/
noncomputable def runT1Fit
    (curve_fit : (ℝ → ℝ → ℝ → ℝ → ℝ) → List ℝ → List ℝ → List ℝ →
      (Fin 3 → ℝ) → FitResult)
    (time_us signal error : List ℝ) : FitResult × (Fin 3 → ℝ) :=
  let r := curve_fit stretched_exp time_us signal error
    (initialGuess time_us signal)
  (r, fun i => Real.sqrt (r.pcov i i))

/-- C2: for any solver and any data series with n ≥ 3 points, the pipeline
starts the fit of S(t) = A·exp(−(t/τ)^γ) from A₀ = max(S),
τ₀ = (t_max − t_min)/2, γ₀ = 1 (where npMax/npMin really are the maximum and
minimum of the data), and returns standard errors equal to the square roots
of the diagonal entries of the fit's covariance matrix. -/
theorem stretchedExpFit_setup
    (cf : (ℝ → ℝ → ℝ → ℝ → ℝ) → List ℝ → List ℝ → List ℝ →
      (Fin 3 → ℝ) → FitResult)
    (time_us signal error : List ℝ)
    (hn : 3 ≤ signal.length) (hlen : time_us.length = signal.length) :
    (∀ t A tau gamma, stretched_exp t A tau gamma =
        A * Real.exp (-(t / tau) ^ gamma)) ∧
    (runT1Fit cf time_us signal error).1 =
      cf stretched_exp time_us signal error (initialGuess time_us signal) ∧
    initialGuess time_us signal 0 ∈ signal ∧
    (∀ s ∈ signal, s ≤ initialGuess time_us signal 0) ∧
    initialGuess time_us signal 1 = (npMax time_us - npMin time_us) / 2 ∧
    npMax time_us ∈ time_us ∧ (∀ a ∈ time_us, a ≤ npMax time_us) ∧
    npMin time_us ∈ time_us ∧ (∀ a ∈ time_us, npMin time_us ≤ a) ∧
    initialGuess time_us signal 2 = 1 ∧
    (∀ i, (runT1Fit cf time_us signal error).2 i =
      Real.sqrt ((runT1Fit cf time_us signal error).1.pcov i i)) := by
  have hsig : signal ≠ [] := by
    intro h
    rw [h] at hn
    simp at hn
  have htime : time_us ≠ [] := by
    intro h
    rw [h, List.length_nil] at hlen
    omega
  obtain ⟨s, ss, rfl⟩ := List.exists_cons_of_ne_nil hsig
  obtain ⟨u, us, rfl⟩ := List.exists_cons_of_ne_nil htime
  refine ⟨fun t A tau gamma => rfl, rfl, ?_, ?_, rfl, ?_, ?_, ?_, ?_, rfl,
    fun i => rfl⟩
  · show npMax (s :: ss) ∈ s :: ss
    exact foldl_max_mem s ss
  · intro a ha
    exact le_foldl_max s ss a ha
  · exact foldl_max_mem u us
  · exact le_foldl_max u us
  · exact foldl_min_mem u us
  · exact foldl_min_le u us

/-- Witness for C2 with a trivial solver and the data series
t = [1,2,3], S = [5,4,2], σ = [1,1,1]. -/
theorem stretchedExpFit_setup_witness :
    3 ≤ ([5, 4, 2] : List ℝ).length ∧
    ([1, 2, 3] : List ℝ).length = ([5, 4, 2] : List ℝ).length ∧
    ((∀ t A tau gamma, stretched_exp t A tau gamma =
        A * Real.exp (-(t / tau) ^ gamma)) ∧
      (runT1Fit (fun _ _ _ _ _ => FitResult.mk (fun _ => 0) (fun _ _ => 0))
          [1, 2, 3] [5, 4, 2] [1, 1, 1]).1 =
        (fun _ _ _ _ _ => FitResult.mk (fun _ => 0) (fun _ _ => 0))
          stretched_exp [1, 2, 3] [5, 4, 2] [1, 1, 1]
          (initialGuess [1, 2, 3] [5, 4, 2]) ∧
      initialGuess [1, 2, 3] [5, 4, 2] 0 ∈ ([5, 4, 2] : List ℝ) ∧
      (∀ s ∈ ([5, 4, 2] : List ℝ), s ≤ initialGuess [1, 2, 3] [5, 4, 2] 0) ∧
      initialGuess [1, 2, 3] [5, 4, 2] 1 =
        (npMax [1, 2, 3] - npMin [1, 2, 3]) / 2 ∧
      npMax [1, 2, 3] ∈ ([1, 2, 3] : List ℝ) ∧
      (∀ a ∈ ([1, 2, 3] : List ℝ), a ≤ npMax [1, 2, 3]) ∧
      npMin [1, 2, 3] ∈ ([1, 2, 3] : List ℝ) ∧
      (∀ a ∈ ([1, 2, 3] : List ℝ), npMin [1, 2, 3] ≤ a) ∧
      initialGuess [1, 2, 3] [5, 4, 2] 2 = 1 ∧
      (∀ i, (runT1Fit (fun _ _ _ _ _ => FitResult.mk (fun _ => 0)
            (fun _ _ => 0)) [1, 2, 3] [5, 4, 2] [1, 1, 1]).2 i =
        Real.sqrt ((runT1Fit (fun _ _ _ _ _ => FitResult.mk (fun _ => 0)
            (fun _ _ => 0)) [1, 2, 3] [5, 4, 2] [1, 1, 1]).1.pcov i i))) :=
  ⟨by simp, by simp,
    stretchedExpFit_setup (fun _ _ _ _ _ => FitResult.mk (fun _ => 0)
      (fun _ _ => 0)) [1, 2, 3] [5, 4, 2] [1, 1, 1] (by simp) (by simp)⟩

/-! ## Claim C8: bounded iteration budget and distinct failure outcomes

The repository calls `curve_fit(..., maxfev=10000)`.  The solver itself is
scipy library code, not part of this repository's sources, so it is modelled
from the spec: a capped iteration loop whose exhaustion (non-convergence) is
one failure outcome, followed by a covariance estimation step whose
singular / non-positive-definite estimate is a second, distinct failure
outcome; only a converged state with a positive-definite covariance is a
success, and a success therefore never carries zero uncertainty. -/

/-- The iteration cap passed by `plot_T1_decay_80K_2L.py`: `maxfev=10000`. -/
def t1_maxfev : ℕ := 10000

/-- Modelled from the spec: the fit-failure conditions of
`scipy.optimize.curve_fit` (external library code, absent from src/):
non-convergence within the `maxfev` iteration budget, or a singular /
non-positive-definite parameter covariance estimate. -/
inductive FitFailure where
  | maxfevExceeded
  | singularCovariance

/-- Modelled from the spec: the iteration loop of `scipy.optimize.curve_fit`
(external library code, absent from src/) — iterative least-squares stepping
that stops when converged, capped at `maxfev` function evaluations, and
surfacing exhaustion of the budget as the failure outcome
`FitFailure.maxfevExceeded`, distinct from a successful fit. -/
def curveFitLoop {α : Type} (step : α → α) (converged : α → Bool) :
    ℕ → α → Except FitFailure α
  | 0, _ => Except.error FitFailure.maxfevExceeded
  | n + 1, s =>
      if converged s then Except.ok s else curveFitLoop step converged n (step s)

lemma curveFitLoop_cases {α : Type} (step : α → α) (conv : α → Bool) :
    ∀ (n : ℕ) (s : α),
      (∃ r, curveFitLoop step conv n s = Except.ok r ∧ conv r = true) ∨
      curveFitLoop step conv n s = Except.error FitFailure.maxfevExceeded := by
  intro n
  induction n with
  | zero => intro s; right; rfl
  | succ m ih =>
      intro s
      by_cases h : conv s = true
      · exact Or.inl ⟨s, by simp [curveFitLoop, h], h⟩
      · have : curveFitLoop step conv (m + 1) s =
            curveFitLoop step conv m (step s) := by
          simp [curveFitLoop, h]
        rw [this]
        exact ih (step s)

/-- A parameter covariance estimate is acceptable when it is positive
definite: vᵀ·C·v > 0 for every v ≠ 0.  A singular or non-positive-definite
estimate fails this test (a positive-definite matrix is in particular
nonsingular). -/
def covPosDef (C : Fin 3 → Fin 3 → ℝ) : Prop :=
  ∀ v : Fin 3 → ℝ, v ≠ 0 → 0 < ∑ i, ∑ j, v i * C i j * v j

open Classical in
/-- Modelled from the spec: `scipy.optimize.curve_fit` as a whole (external
library code, absent from src/) — run the capped iteration loop from the
initial state; on convergence form the parameter estimates and covariance,
and surface a singular / non-positive-definite covariance estimate as the
distinct failure `FitFailure.singularCovariance` instead of returning it as
a success. -/
noncomputable def curve_fit_model {α : Type} (step : α → α)
    (converged : α → Bool) (estimate : α → FitResult) (maxfev : ℕ)
    (s0 : α) : Except FitFailure FitResult :=
  match curveFitLoop step converged maxfev s0 with
  | Except.error e => Except.error e
  | Except.ok s =>
      if covPosDef (estimate s).pcov then Except.ok (estimate s)
      else Except.error FitFailure.singularCovariance

lemma curve_fit_model_cases {α : Type} (step : α → α) (conv : α → Bool)
    (estimate : α → FitResult) (n : ℕ) (s : α) :
    (∃ s', curveFitLoop step conv n s = Except.ok s' ∧ conv s' = true ∧
      curve_fit_model step conv estimate n s = Except.ok (estimate s') ∧
      covPosDef (estimate s').pcov) ∨
    curve_fit_model step conv estimate n s =
      Except.error FitFailure.maxfevExceeded ∨
    curve_fit_model step conv estimate n s =
      Except.error FitFailure.singularCovariance := by
  rcases curveFitLoop_cases step conv n s with ⟨r, hr, hconv⟩ | herr
  · by_cases hpd : covPosDef (estimate r).pcov
    · exact Or.inl ⟨r, hr, hconv, by simp [curve_fit_model, hr, hpd], hpd⟩
    · exact Or.inr (Or.inr (by simp [curve_fit_model, hr, hpd]))
  · exact Or.inr (Or.inl (by simp [curve_fit_model, herr]))

lemma curve_fit_model_ok_posDef {α : Type} (step : α → α) (conv : α → Bool)
    (estimate : α → FitResult) (n : ℕ) (s : α) (r : FitResult)
    (h : curve_fit_model step conv estimate n s = Except.ok r) :
    covPosDef r.pcov := by
  rcases curve_fit_model_cases step conv estimate n s with
    ⟨s', _, _, hok, hpd⟩ | herr | herr
  · rw [h] at hok
    rw [Except.ok.inj hok]
    exact hpd
  · rw [h] at herr
    exact Except.noConfusion herr
  · rw [h] at herr
    exact Except.noConfusion herr

/-- A positive-definite covariance has strictly positive diagonal entries
(test vectors: the three standard basis vectors of `Fin 3 → ℝ`). -/
lemma covPosDef_diag_pos {C : Fin 3 → Fin 3 → ℝ} (h : covPosDef C)
    (i : Fin 3) : 0 < C i i := by
  fin_cases i
  · have hv : (![1, 0, 0] : Fin 3 → ℝ) ≠ 0 := by
      intro hfun
      have := congrFun hfun 0
      simp at this
    have := h ![1, 0, 0] hv
    simpa [Fin.sum_univ_three] using this
  · have hv : (![0, 1, 0] : Fin 3 → ℝ) ≠ 0 := by
      intro hfun
      have := congrFun hfun 1
      simp at this
    have := h ![0, 1, 0] hv
    simpa [Fin.sum_univ_three] using this
  · have hv : (![0, 0, 1] : Fin 3 → ℝ) ≠ 0 := by
      intro hfun
      have := congrFun hfun 2
      simp at this
    have := h ![0, 0, 1] hv
    simpa [Fin.sum_univ_three] using this

/-- C8: the fit runs under the bounded budget `t1_maxfev = 10000`, and for
every solver state, stepping rule, convergence test and estimator the capped
fit has exactly three outcomes: a success whose loop state genuinely
converged and whose covariance is positive definite, the budget-exhausted
(non-convergence) failure, or the singular / non-positive-definite
covariance failure; the two failures are distinct from each other and from
every success, and a success always has strictly positive diagonal
covariance entries and strictly positive standard errors √(pcovᵢᵢ) — so a
failed fit is never masked as a success, and a success never reports zero
uncertainty. -/
theorem stretchedExpFit_bounded_budget {α : Type} (step : α → α)
    (conv : α → Bool) (estimate : α → FitResult) (s : α) :
    t1_maxfev = 10000 ∧
    ((∃ s', curveFitLoop step conv t1_maxfev s = Except.ok s' ∧
        conv s' = true ∧
        curve_fit_model step conv estimate t1_maxfev s =
          Except.ok (estimate s') ∧
        covPosDef (estimate s').pcov) ∨
      curve_fit_model step conv estimate t1_maxfev s =
        Except.error FitFailure.maxfevExceeded ∨
      curve_fit_model step conv estimate t1_maxfev s =
        Except.error FitFailure.singularCovariance) ∧
    ((Except.error FitFailure.maxfevExceeded :
        Except FitFailure FitResult) ≠
      Except.error FitFailure.singularCovariance) ∧
    (∀ r : FitResult,
      (Except.ok r : Except FitFailure FitResult) ≠
        Except.error FitFailure.maxfevExceeded ∧
      (Except.ok r : Except FitFailure FitResult) ≠
        Except.error FitFailure.singularCovariance) ∧
    (∀ r, curve_fit_model step conv estimate t1_maxfev s = Except.ok r →
      ∀ i, 0 < r.pcov i i ∧ 0 < Real.sqrt (r.pcov i i)) :=
  ⟨rfl, curve_fit_model_cases step conv estimate t1_maxfev s,
    fun h => FitFailure.noConfusion (Except.error.inj h),
    fun r => ⟨fun h => Except.noConfusion h, fun h => Except.noConfusion h⟩,
    fun r h i =>
      have hpd := curve_fit_model_ok_posDef step conv estimate t1_maxfev s r h
      have hd := covPosDef_diag_pos hpd i
      ⟨hd, Real.sqrt_pos.mpr hd⟩⟩

/-! ## Claim C9: purity of the physics functions

Each library function is embedded as a pure Lean function of its arguments.
To state history-independence, a call trace is evaluated explicitly: the
value of any call in a trace depends only on that call's arguments, not on
its position or on the surrounding calls. -/

/-- A call to one of the physics-library functions with its arguments. -/
inductive LibCall where
  | kernelCall (q d : ℝ)
  | sombreroCall (x y mu lam : ℝ)
  | deltaCall (x center width amplitude : ℝ)
  | timeToSNRCall (p : AcquisitionParams) (ev t : ℝ)

/-- Evaluate one call. -/
noncomputable def evalCall : LibCall → ℝ
  | .kernelCall q d => f q d
  | .sombreroCall x y mu lam => sombreroPotential x y mu lam
  | .deltaCall x center width amplitude => delta_function x center width amplitude
  | .timeToSNRCall p ev t => calculate_time_to_snr p ev t

/-- Evaluate a whole call history in order. -/
noncomputable def evalTrace (calls : List LibCall) : List ℝ :=
  calls.map evalCall

/-- C9: the physics functions are deterministic and stateless: in any call
history, the result of a call is `evalCall` of its arguments alone — the
same call surrounded by two arbitrary different histories yields the same
result, so no call reads or writes hidden state. -/
theorem physicsFunctions_pure :
    ∀ (pre₁ post₁ pre₂ post₂ : List LibCall) (c : LibCall),
      (evalTrace (pre₁ ++ c :: post₁))[pre₁.length]? = some (evalCall c) ∧
      (evalTrace (pre₁ ++ c :: post₁))[pre₁.length]? =
        (evalTrace (pre₂ ++ c :: post₂))[pre₂.length]? := by
  have key : ∀ (pre post : List LibCall) (c : LibCall),
      (evalTrace (pre ++ c :: post))[pre.length]? = some (evalCall c) := by
    intro pre post c
    simp only [evalTrace, List.map_append, List.map_cons]
    rw [List.getElem?_append_right (by simp)]
    simp
  intro pre₁ post₁ pre₂ post₂ c
  exact ⟨key pre₁ post₁ c, by rw [key pre₁ post₁ c, key pre₂ post₂ c]⟩
